import Mathlib

/-!
Verification of the SpendTrack invoice ingestion / categorization pipeline and of
the frontend expense views, as a shallow embedding in Lean 4.

The frontend (Next.js) sources are embedded directly from the repository
(`frontend/src/types/index.ts`, `frontend/src/components/quick-stats.tsx`, the
expenses page). The FastAPI backend services (invoice parser, categorizer, import
coordinator, analytics engine) are not part of the available sources;
those are modelled from the specification, as flagged on each definition.
-/

set_option maxHeartbeats 1000000

namespace SpendTrack

/-- Expense categories, from `frontend/src/types/index.ts` (`ExpenseCategory`). -/
inductive Category
  | food
  | transport
  | shopping
  | health
  | entertainment
  | utilities
  | education
  | other
deriving DecidableEq, Repr

/-- Which method produced a classification, from the spec contract
`classify(candidate) -> (category, source: "rule" | "ai" | "default")`. -/
inductive Source
  | rule
  | ai
  | default
deriving DecidableEq, Repr

/-- Lower-cased character list of a string (case-insensitive matching). -/
def lowerChars (s : String) : List Char :=
  s.data.map Char.toLower

/-- Boolean list-prefix test on characters. -/
def isPrefixCh : List Char → List Char → Bool
  | [], _ => true
  | _ :: _, [] => false
  | a :: as, b :: bs => a == b && isPrefixCh as bs

/-- Boolean substring test: does `needle` occur contiguously inside the second list? -/
def containsSub (needle : List Char) : List Char → Bool
  | [] => isPrefixCh needle []
  | c :: rest => isPrefixCh needle (c :: rest) || containsSub needle rest

/-- One deterministic classification rule: merchant keyword, target category. -/
structure Rule where
  keyword : String
  category : Category
deriving DecidableEq, Repr

/-- Modelled from the spec: deterministic rule match, first rule whose keyword is a
case-insensitive substring of the merchant (backend categorizer service is absent
from the sources). -/
def ruleMatch (rules : List Rule) (merchant : String) : Option Category :=
  rules.findSome? fun r =>
    if containsSub (lowerChars r.keyword) (lowerChars merchant) then some r.category
    else none

/-- A normalized but not-yet-persisted transaction record (glossary: Candidate). -/
structure Candidate where
  date : Nat
  merchant : String
  amount : Int
  description : String
deriving DecidableEq, Repr

/-- Modelled from the spec: `classify` tries the rule table first; if no rule
matches it uses the external AI result (`none` models failure/timeout after
retries), else falls back to OTHER with source "default". The backend
categorizer service is absent from the sources. -/
def classify (rules : List Rule) (c : Candidate) (aiResult : Option Category) :
    Category × Source :=
  match ruleMatch rules c.merchant with
  | some cat => (cat, Source.rule)
  | none =>
    match aiResult with
    | some cat => (cat, Source.ai)
    | none => (Category.other, Source.default)

/-- Persisted expense entity (shape from `frontend/src/types/index.ts` `Expense`;
dates as abstract day numbers, amounts as exact integers in minor units).
`classifyRuns` is model bookkeeping: how many times classification has run for
this record, used to state the `aiCategory` invariant. -/
structure Expense where
  id : Nat
  userId : Nat
  invoiceId : Nat
  date : Nat
  merchant : String
  amount : Int
  category : Option Category
  aiCategory : Option Category
  description : String
  classifyRuns : Nat
deriving DecidableEq, Repr

/-- Invoice status, from `frontend/src/types/index.ts` (`Invoice.status`). -/
inductive Status
  | pending
  | processing
  | processed
  | failed
deriving DecidableEq, Repr

/-- One upload batch (shape from `frontend/src/types/index.ts` `Invoice`). -/
structure Invoice where
  id : Nat
  filename : String
  status : Status
  expenseCount : Nat
  totalAmount : Int
deriving DecidableEq, Repr

/-- The persistent store: expense and invoice tables plus id counters. -/
structure Store where
  expenses : List Expense
  invoices : List Invoice
  nextExpenseId : Nat
  nextInvoiceId : Nat
deriving DecidableEq, Repr

/-- The empty store. -/
def emptyStore : Store :=
  { expenses := [], invoices := [], nextExpenseId := 0, nextInvoiceId := 0 }

/-- Modelled from the spec: a candidate matches an existing expense of the same
user when (date, merchant, amount) are exactly equal. -/
def sameTxn (userId : Nat) (c : Candidate) (e : Expense) : Bool :=
  decide (e.userId = userId ∧ e.date = c.date ∧ e.merchant = c.merchant ∧
    e.amount = c.amount)

/-- Modelled from the spec: duplicate detection against the current store
(backend import coordinator is absent from the sources). -/
def isDuplicate (s : Store) (userId : Nat) (c : Candidate) : Bool :=
  s.expenses.any (sameTxn userId c)

/-- Modelled from the spec: build the persisted expense for an imported
candidate; `category` is always set, `aiCategory` only when the AI path
produced the category. -/
def mkExpense (id userId invId : Nat) (c : Candidate) (cat : Category)
    (aiCat : Option Category) : Expense :=
  { id := id, userId := userId, invoiceId := invId, date := c.date,
    merchant := c.merchant, amount := c.amount, category := some cat,
    aiCategory := aiCat, description := c.description, classifyRuns := 1 }

/-- Append a new expense row and advance the id counter. -/
def insertExpense (s : Store) (e : Expense) : Store :=
  { s with expenses := s.expenses ++ [e], nextExpenseId := s.nextExpenseId + 1 }

/-- The `aiCategory` value recorded at import time: the AI result exactly when
the AI path produced the category, absent otherwise. -/
def aiFieldOf (rules : List Rule) (c : Candidate) (aiR : Option Category) :
    Option Category :=
  match (classify rules c aiR).2 with
  | Source.ai => aiR
  | _ => none

/-- Result of importing one batch of candidates. -/
structure ImportResult where
  store : Store
  imported : Nat
  skipped : Nat
deriving Repr

/-- Modelled from the spec: the import coordinator walks the candidates in
order; duplicates are skipped and counted, non-duplicates are classified and
persisted (so a duplicate later in the same file is caught against the row just
inserted). `ai` models the external AI categorization outcome per candidate
(`none` = failure/timeout after retries). -/
def importCandidates (rules : List Rule) (ai : Candidate → Option Category)
    (userId invId : Nat) : Store → List Candidate → ImportResult
  | s, [] => { store := s, imported := 0, skipped := 0 }
  | s, c :: cs =>
    if isDuplicate s userId c then
      let r := importCandidates rules ai userId invId s cs
      { store := r.store, imported := r.imported, skipped := r.skipped + 1 }
    else
      let e := mkExpense s.nextExpenseId userId invId c
        (classify rules c (ai c)).1 (aiFieldOf rules c (ai c))
      let r := importCandidates rules ai userId invId (insertExpense s e) cs
      { store := r.store, imported := r.imported + 1, skipped := r.skipped }

/-- One line of an uploaded tabular file (spec `RawRow`). -/
structure RawRow where
  date : String
  description : String
  amount : String
deriving DecidableEq, Repr

/-- A row-level normalization error (row index and message). -/
structure RowError where
  rowIndex : Nat
  message : String
deriving DecidableEq, Repr

/-- Modelled from the spec: normalizer configuration — date and amount parsers
(locale, column format) and merchant derivation are configuration, not
hard-coded. -/
structure NormConfig where
  parseDate : String → Option Nat
  parseAmount : String → Option Int
  deriveMerchant : String → String

/-- Modelled from the spec: normalize one row — an unparseable date or amount
yields a row error, otherwise an expense candidate. -/
def normalizeRow (cfg : NormConfig) (idx : Nat) (r : RawRow) :
    Sum Candidate RowError :=
  match cfg.parseDate r.date with
  | none => Sum.inr { rowIndex := idx, message := "unparseable date" }
  | some d =>
    match cfg.parseAmount r.amount with
    | none => Sum.inr { rowIndex := idx, message := "unparseable amount" }
    | some a =>
      Sum.inl { date := d, merchant := cfg.deriveMerchant r.description,
                amount := a, description := r.description }

/-- Normalize all rows starting at a given row index, one output per input row. -/
def normalizeFrom (cfg : NormConfig) : Nat → List RawRow → List (Sum Candidate RowError)
  | _, [] => []
  | i, r :: rs => normalizeRow cfg i r :: normalizeFrom cfg (i + 1) rs

/-- Normalize all rows of an upload, in input order. -/
def normalizeAll (cfg : NormConfig) (rows : List RawRow) : List (Sum Candidate RowError) :=
  normalizeFrom cfg 0 rows

/-- Modelled from the spec: `normalize` splits the per-row outcomes into the
candidate sequence and the row-error sequence, both in input order. -/
def normalize (cfg : NormConfig) (rows : List RawRow) :
    List Candidate × List RowError :=
  ((normalizeAll cfg rows).filterMap Sum.getLeft?,
   (normalizeAll cfg rows).filterMap Sum.getRight?)

/-- Is an invoice status terminal? -/
def terminalStatus : Status → Bool
  | Status.processed => true
  | Status.failed => true
  | _ => false

/-- Modelled from the spec: the allowed invoice status transitions
`pending → processing → {processed | failed}`. -/
def allowedNext : Status → Status → Bool
  | Status.pending, Status.processing => true
  | Status.processing, Status.processed => true
  | Status.processing, Status.failed => true
  | _, _ => false

/-- Modelled from the spec: guarded status transition — a disallowed transition
(in particular any move out of a terminal state) leaves the status unchanged. -/
def stepStatus (cur target : Status) : Status :=
  if allowedNext cur target then target else cur

/-- Modelled from the spec: import coordinator configuration — rule table and
the configurable row-error threshold fraction (numerator / denominator). -/
structure CoordConfig where
  rules : List Rule
  errorThresholdNum : Nat
  errorThresholdDen : Nat

/-- Result of processing one upload. -/
structure UploadResult where
  store : Store
  invoice : Invoice
  imported : Nat
  skipped : Nat
  rowErrors : Nat
deriving Repr

/-- Modelled from the spec: the import coordinator. A fresh Invoice is created
(status pending), advanced to processing, the upload is normalized and the
candidates imported; the invoice ends failed when there are zero valid rows or
the row-error count exceeds the threshold fraction of total rows, otherwise
processed. The new invoice is appended; existing invoices are untouched. -/
def processUpload (cfg : NormConfig) (cc : CoordConfig)
    (ai : Candidate → Option Category) (userId : Nat) (filename : String)
    (s : Store) (rows : List RawRow) : UploadResult :=
  let invId := s.nextInvoiceId
  let s0 : Store := { s with nextInvoiceId := invId + 1 }
  let n := normalize cfg rows
  let r := importCandidates cc.rules ai userId invId s0 n.1
  let failedB : Bool :=
    n.1.isEmpty ||
      decide (cc.errorThresholdNum * rows.length < n.2.length * cc.errorThresholdDen)
  let st := stepStatus (stepStatus Status.pending Status.processing)
    (if failedB then Status.failed else Status.processed)
  let total : Int :=
    ((r.store.expenses.filter (fun e => decide (e.invoiceId = invId))).map
      (fun e => e.amount)).sum
  let inv : Invoice :=
    { id := invId, filename := filename, status := st,
      expenseCount := r.imported, totalAmount := total }
  { store := { r.store with invoices := r.store.invoices ++ [inv] },
    invoice := inv, imported := r.imported, skipped := r.skipped,
    rowErrors := n.2.length }

/-- Candidate view of a persisted expense, used when re-running classification. -/
def candOf (e : Expense) : Candidate :=
  { date := e.date, merchant := e.merchant, amount := e.amount,
    description := e.description }

/-- Modelled from the spec: `recategorize` re-runs the same classify path for
one existing expense, overwriting `category` / `aiCategory`. -/
def recatExpense (rules : List Rule) (aiR : Option Category) (e : Expense) :
    Expense :=
  let cat := classify rules (candOf e) aiR
  { e with
    category := some cat.1,
    aiCategory :=
      match cat.2 with
      | Source.ai => aiR
      | _ => e.aiCategory,
    classifyRuns := e.classifyRuns + 1 }

/-- Modelled from the spec: `classifyBatch` applies to every expense of the user
currently categorized as OTHER or uncategorized. -/
def eligibleForRecat (u : Nat) (e : Expense) : Bool :=
  decide (e.userId = u ∧ (e.category = some Category.other ∨ e.category = none))

/-- Modelled from the spec: batch recategorization — re-classify every eligible
expense of the user; returns the new store, the processed count and the changed
count. -/
def classifyBatch (rules : List Rule) (ai : Expense → Option Category) (u : Nat)
    (s : Store) : Store × Nat × Nat :=
  let newExps := s.expenses.map fun e =>
    if eligibleForRecat u e then recatExpense rules (ai e) e else e
  let processed := (s.expenses.filter (eligibleForRecat u)).length
  let changed := s.expenses.countP fun e =>
    eligibleForRecat u e &&
      decide ((recatExpense rules (ai e) e).category ≠ e.category)
  ({ s with expenses := newExps }, processed, changed)

/-- The store-mutating operations of the pipeline, for the data-model invariant. -/
inductive Op where
  | upload (cfg : NormConfig) (cc : CoordConfig) (ai : Candidate → Option Category)
      (userId : Nat) (filename : String) (rows : List RawRow)
  | recategorize (rules : List Rule) (aiR : Option Category) (id : Nat)
  | batch (rules : List Rule) (ai : Expense → Option Category) (userId : Nat)
  | updateCategory (id : Nat) (cat : Category)
  | deleteExpense (id : Nat)

/-- Apply one operation to the store. `updateCategory` models the frontend
category selector, which only ever submits a concrete category value. -/
def applyOp (s : Store) : Op → Store
  | Op.upload cfg cc ai u fn rows => (processUpload cfg cc ai u fn s rows).store
  | Op.recategorize rules aiR id =>
    { s with expenses := s.expenses.map fun e =>
        if e.id == id then recatExpense rules aiR e else e }
  | Op.batch rules ai u => (classifyBatch rules ai u s).1
  | Op.updateCategory id cat =>
    { s with expenses := s.expenses.map fun e =>
        if e.id == id then { e with category := some cat } else e }
  | Op.deleteExpense id =>
    { s with expenses := s.expenses.filter fun e => decide (e.id ≠ id) }

/-- Apply a sequence of operations starting from a store. -/
def applyOps (s : Store) (ops : List Op) : Store :=
  ops.foldl applyOp s

/-- The per-expense data-model invariant: `category` is always set and
`aiCategory` is absent until classification has run at least once. (`amount` can
never be null: it is a total integer field, set only from a successfully parsed
candidate amount.) -/
def ExpenseInv (e : Expense) : Prop :=
  e.category.isSome = true ∧ (e.aiCategory.isSome = true → 1 ≤ e.classifyRuns)

/-- Store-wide data-model invariant. -/
def StoreInv (s : Store) : Prop :=
  ∀ e ∈ s.expenses, ExpenseInv e

/-- A date window for aggregation, as inclusive day bounds. -/
structure Window where
  startDay : Nat
  endDay : Nat
deriving DecidableEq, Repr

/-- Is a day inside the window? -/
def inWindow (w : Window) (d : Nat) : Bool :=
  decide (w.startDay ≤ d ∧ d ≤ w.endDay)

/-- The expenses of the user whose date lies in the window. -/
def windowExpenses (es : List Expense) (u : Nat) (w : Window) : List Expense :=
  es.filter fun e => decide (e.userId = u) && inWindow w e.date

/-- Modelled from the spec: total spent over the window, accumulated left to
right over the matching rows (backend analytics engine is absent from the
sources). -/
def totalSpent (es : List Expense) (u : Nat) (w : Window) : Int :=
  (windowExpenses es u w).foldl (fun acc e => acc + e.amount) 0

/-- Window length in days (inclusive bounds, so always ≥ 1 when start ≤ end). -/
def windowDays (w : Window) : Nat :=
  w.endDay - w.startDay + 1

/-- Modelled from the spec: average per day = total / window length in days. -/
def dailyAverage (es : List Expense) (u : Nat) (w : Window) : ℚ :=
  (totalSpent es u w : ℚ) / (windowDays w : ℚ)

/-- Summed amount of the window expenses carrying a given category. -/
def catTotal (es : List Expense) (u : Nat) (w : Window) (c : Category) : Int :=
  (((windowExpenses es u w).filter fun e => decide (e.category = some c)).map
    (fun e => e.amount)).sum

/-- The categories with at least one transaction in the window, in first-seen
order, without repetition. -/
def presentCats (es : List Expense) (u : Nat) (w : Window) : List Category :=
  ((windowExpenses es u w).filterMap (fun e => e.category)).dedup

/-- Modelled from the spec: category breakdown — exactly the categories with at
least one transaction in the window, each mapped to its summed amount. -/
def categoryBreakdown (es : List Expense) (u : Nat) (w : Window) :
    List (Category × Int) :=
  (presentCats es u w).map fun c => (c, catTotal es u w c)

/-- Association lookup in the breakdown. -/
def breakdownLookup (bd : List (Category × Int)) (c : Category) :
    Option (Category × Int) :=
  bd.find? fun p => decide (p.1 = c)

/-- One entry of the monthly trend (months as absolute index `year * 12 + (month - 1)`,
presented as year / 1-based month, matching `MonthlyTrend` in
`frontend/src/types/index.ts`). -/
structure TrendEntry where
  year : Nat
  month : Nat
  monthIdx : Nat
  total : Int
  count : Nat
deriving DecidableEq, Repr

/-- Modelled from the spec: the calendar mapping from a stored date (day number)
to its absolute calendar month index; the backend derives this from the SQL
date type, absent from the sources. -/
structure CalConfig where
  monthOfDay : Nat → Nat

/-- The expenses of the user falling in the given absolute month. -/
def monthExpenses (cal : CalConfig) (es : List Expense) (u : Nat) (m : Nat) :
    List Expense :=
  es.filter fun e => decide (e.userId = u) && decide (cal.monthOfDay e.date = m)

/-- The trend entry for one absolute month. -/
def trendEntry (cal : CalConfig) (es : List Expense) (u : Nat) (m : Nat) :
    TrendEntry :=
  { year := m / 12, month := m % 12 + 1, monthIdx := m,
    total := ((monthExpenses cal es u m).map (fun e => e.amount)).sum,
    count := (monthExpenses cal es u m).length }

/-- Modelled from the spec: `monthlyTrend(monthsBack)` — one entry per calendar
month, oldest to newest, newest being the current month `nowMonth`; a month with
no transactions still yields an entry (its filter is empty, total 0). -/
def monthlyTrend (cal : CalConfig) (es : List Expense) (u : Nat)
    (nowMonth monthsBack : Nat) : List TrendEntry :=
  (List.range monthsBack).map fun i =>
    trendEntry cal es u (nowMonth + 1 - monthsBack + i)

/-! ### Frontend embeddings (code present in the sources) -/

/-- An expense as the expenses page receives it (`category` may be absent, as
declared optional in `frontend/src/types/index.ts`). -/
structure FrontExpense where
  id : Nat
  merchant : String
  amount : Int
  date : Nat
  category : Option Category
  aiCategory : Option Category
deriving DecidableEq, Repr

/-- The uncategorized predicate of the expenses page, from the filter
the line `expense.category` absent or equal to the string other (expenses page,
`uncategorizedExpenses`). -/
def isUncategorized (e : FrontExpense) : Bool :=
  e.category.isNone || decide (e.category = some Category.other)

/-- `uncategorizedExpenses` of the expenses page: the filtered list. -/
def uncategorizedExpenses (es : List FrontExpense) : List FrontExpense :=
  es.filter isUncategorized

/-- The alert render guard `uncategorizedExpenses.length > 0` of the expenses
page (with loading finished). -/
def showUncategorizedAlert (es : List FrontExpense) : Bool :=
  decide (0 < (uncategorizedExpenses es).length)

/-- The per-row highlight condition
of the expenses page: category absent or equal to the string other. -/
def rowHighlighted (e : FrontExpense) : Bool :=
  e.category.isNone || decide (e.category = some Category.other)

/-- The per-row category selector value of the expenses page: the category,
falling back to other when absent. -/
def selectorCategory (e : FrontExpense) : Category :=
  e.category.getD Category.other

/-- The spending summary as `QuickStats` receives it; `categoryBreakdown` is a
key-value list in object-entry iteration order, `none` models an absent field
(the component guards with `summary.category_breakdown || {}`). -/
structure FrontSummary where
  totalSpent : Int
  dailyAverage : Int
  transactionCount : Nat
  categoryBreakdown : Option (List (String × Int))
deriving Repr

/-- `charAt(0).toUpperCase() + slice(1)` from `quick-stats.tsx`. -/
def capitalizeFirst (s : String) : String :=
  match s.data with
  | [] => s
  | c :: cs => String.mk (c.toUpper :: cs)

/-- `Object.entries(summary.category_breakdown || {})[0]` from
`quick-stats.tsx`: the first entry in object-entry iteration order, if any. -/
def topCategoryEntry (s : FrontSummary) : Option (String × Int) :=
  (s.categoryBreakdown.getD []).head?

/-- The "Top Category" headline of `QuickStats`: capitalized first-entry name,
or "N/A" when there is no entry. -/
def quickStatsTopName (s : FrontSummary) : String :=
  match topCategoryEntry s with
  | some p => capitalizeFirst p.1
  | none => "N/A"

/-- The "Top Category" sub-line amount of `QuickStats`: the amount of the first entry, or `none` (rendered as "No data") when there is no entry. -/
def quickStatsTopAmount (s : FrontSummary) : Option Int :=
  (topCategoryEntry s).map Prod.snd

/-! ### Concrete sample data, used by the witness theorems -/

/-- A small concrete rule table. -/
def sampleRules : List Rule :=
  [{ keyword := "uber", category := Category.transport },
   { keyword := "ifd", category := Category.food }]

/-- A candidate whose merchant matches the "uber" rule case-insensitively. -/
def uberCand : Candidate :=
  { date := 19727, merchant := "UBER TRIP 123", amount := -1550,
    description := "UBER TRIP 123" }

/-- A candidate whose merchant matches no rule. -/
def unknownCand : Candidate :=
  { date := 19727, merchant := "XYZ STORE", amount := -500,
    description := "XYZ STORE" }

/-- A concrete normalizer configuration with simple exact-match parsers. -/
def sampleNormCfg : NormConfig :=
  { parseDate := fun s => if s = "2024-01-05" then some 19727 else none,
    parseAmount := fun s => if s = "-15.50" then some (-1550) else none,
    deriveMerchant := fun s => s }

/-- A concrete coordinator configuration (50 percent row-error threshold). -/
def sampleCoordCfg : CoordConfig :=
  { rules := sampleRules, errorThresholdNum := 1, errorThresholdDen := 2 }

/-- One valid raw row whose merchant matches no rule. -/
def sampleRows : List RawRow :=
  [{ date := "2024-01-05", description := "XYZ STORE", amount := "-15.50" }]

/-- A two-row upload: one valid row, one row with an unparseable date. -/
def mixedRows : List RawRow :=
  [{ date := "2024-01-05", description := "XYZ STORE", amount := "-15.50" },
   { date := "not-a-date", description := "XYZ STORE", amount := "-15.50" }]

/-- The expense persisted by uploading `sampleRows` with a failing AI into the
empty store. -/
def sampleImportedExpense : Expense :=
  { id := 0, userId := 1, invoiceId := 0, date := 19727, merchant := "XYZ STORE",
    amount := -1550, category := some Category.other, aiCategory := none,
    description := "XYZ STORE", classifyRuns := 1 }

/-- A concrete frontend expense with no category. -/
def sampleFrontExpense : FrontExpense :=
  { id := 1, merchant := "M", amount := 5, date := 3, category := none,
    aiCategory := none }

/-- A concrete summary where the first breakdown entry is not the largest. -/
def sampleSummary : FrontSummary :=
  { totalSpent := 3, dailyAverage := 0, transactionCount := 2,
    categoryBreakdown := some [("food", 1), ("transport", 2)] }

/-- A concrete expense list for the aggregation witnesses. -/
def sampleExpenses : List Expense :=
  [{ id := 0, userId := 1, invoiceId := 0, date := 10, merchant := "A",
     amount := 7, category := some Category.food, aiCategory := none,
     description := "A", classifyRuns := 1 },
   { id := 1, userId := 1, invoiceId := 0, date := 25, merchant := "B",
     amount := 5, category := some Category.transport, aiCategory := none,
     description := "B", classifyRuns := 1 },
   { id := 2, userId := 2, invoiceId := 0, date := 12, merchant := "C",
     amount := 9, category := some Category.food, aiCategory := none,
     description := "C", classifyRuns := 1 }]

/-- A concrete aggregation window of 11 days. -/
def sampleWindow : Window :=
  { startDay := 5, endDay := 15 }

/-- A concrete calendar mapping: thirty-day months. -/
def sampleCal : CalConfig :=
  { monthOfDay := fun d => d / 30 }

/-! ## Theorems -/

/-- C3: `classify` tries the deterministic rule table first (case-insensitive
merchant substring match), invokes the external AI call only when no rule
matches, and falls back to category OTHER with source "default" when the AI
call fails; for every rule-matched merchant it returns the same rule-based
category on every invocation, independent of the AI result. -/
theorem classify_rule_first_spec (rules : List Rule) (c : Candidate)
    (aiR : Option Category) :
    (∀ cat, ruleMatch rules c.merchant = some cat →
      classify rules c aiR = (cat, Source.rule)) ∧
    (ruleMatch rules c.merchant = none → ∀ cat, aiR = some cat →
      classify rules c aiR = (cat, Source.ai)) ∧
    (ruleMatch rules c.merchant = none → aiR = none →
      classify rules c aiR = (Category.other, Source.default)) ∧
    (∀ cat, ruleMatch rules c.merchant = some cat → ∀ aiR2,
      classify rules c aiR2 = classify rules c aiR) := by
  refine ⟨?_, ?_, ?_, ?_⟩
  · intro cat h
    simp [classify, h]
  · intro h cat ha
    simp [classify, h, ha]
  · intro h ha
    simp [classify, h, ha]
  · intro cat h aiR2
    simp [classify, h]

/-- Witness for C3 at a concrete rule table and candidates. -/
theorem classify_rule_first_spec_witness :
    classify sampleRules uberCand none = (Category.transport, Source.rule) ∧
    classify sampleRules unknownCand (some Category.food) =
      (Category.food, Source.ai) ∧
    classify sampleRules unknownCand none = (Category.other, Source.default) :=
  ⟨(classify_rule_first_spec sampleRules uberCand none).1 Category.transport
      (by decide),
   (classify_rule_first_spec sampleRules unknownCand (some Category.food)).2.1
      (by decide) Category.food rfl,
   (classify_rule_first_spec sampleRules unknownCand none).2.2.1 (by decide) rfl⟩

/-- C9: the expenses page treats an expense as uncategorized exactly when its
category is absent or equals OTHER; the alert fires exactly when some rendered
expense satisfies this predicate, the alert count is the count of such
expenses, the row highlight uses the same predicate, and the category selector
displays OTHER for such expenses. -/
theorem expenses_page_uncategorized_spec (es : List FrontExpense) :
    (showUncategorizedAlert es = true ↔ ∃ e ∈ es, isUncategorized e = true) ∧
    (uncategorizedExpenses es).length = es.countP isUncategorized ∧
    (∀ e : FrontExpense, rowHighlighted e = isUncategorized e) ∧
    (∀ e : FrontExpense, isUncategorized e = true ↔
      (e.category = none ∨ e.category = some Category.other)) ∧
    (∀ e : FrontExpense, isUncategorized e = true →
      selectorCategory e = Category.other) := by
  refine ⟨?_, ?_, ?_, ?_, ?_⟩
  · rw [showUncategorizedAlert, decide_eq_true_eq, uncategorizedExpenses,
      ← List.countP_eq_length_filter, List.countP_pos_iff]
  · simp [uncategorizedExpenses, List.countP_eq_length_filter]
  · intro e
    rfl
  · intro e
    cases h : e.category <;> simp [isUncategorized, h]
  · intro e h
    cases hc : e.category with
    | none => simp [selectorCategory, hc]
    | some c =>
      have : c = Category.other := by
        simpa [isUncategorized, hc] using h
      simp [selectorCategory, hc, this]

/-- Witness for C9 at a concrete category-less expense. -/
theorem expenses_page_uncategorized_spec_witness :
    selectorCategory sampleFrontExpense = Category.other :=
  (expenses_page_uncategorized_spec []).2.2.2.2 sampleFrontExpense (by decide)

/-- C10: for a non-empty category breakdown, QuickStats shows as Top Category
the first breakdown entry in object-entry iteration order (capitalized name
and its amount) — not necessarily the category with the largest amount — and
shows the N/A / No-data placeholders when the breakdown is empty or absent. -/
theorem quickStats_top_category_spec (s : FrontSummary) :
    (∀ hd tl, s.categoryBreakdown = some (hd :: tl) →
      quickStatsTopName s = capitalizeFirst hd.1 ∧
      quickStatsTopAmount s = some hd.2) ∧
    ((s.categoryBreakdown = none ∨ s.categoryBreakdown = some []) →
      quickStatsTopName s = "N/A" ∧ quickStatsTopAmount s = none) ∧
    (∃ s2 : FrontSummary, ∃ hd p : String × Int,
      s2.categoryBreakdown = some (hd :: [p]) ∧ hd.2 < p.2 ∧
      quickStatsTopName s2 = capitalizeFirst hd.1 ∧
      quickStatsTopAmount s2 = some hd.2) := by
  refine ⟨?_, ?_, ?_⟩
  · intro hd tl h
    constructor <;>
      simp [quickStatsTopName, quickStatsTopAmount, topCategoryEntry, h]
  · intro h
    rcases h with h | h <;>
      constructor <;>
        simp [quickStatsTopName, quickStatsTopAmount, topCategoryEntry, h]
  · refine ⟨sampleSummary, ("food", 1), ("transport", 2), rfl, by decide, rfl, rfl⟩

/-- Witness for C10 at a concrete summary. -/
theorem quickStats_top_category_spec_witness :
    quickStatsTopAmount sampleSummary = some 1 :=
  ((quickStats_top_category_spec sampleSummary).1 ("food", 1) [("transport", 2)]
    rfl).2

/-- Helper: normalization emits exactly one output per input row. -/
theorem normalizeFrom_length (cfg : NormConfig) (i : Nat) (rows : List RawRow) :
    (normalizeFrom cfg i rows).length = rows.length := by
  induction rows generalizing i with
  | nil => rfl
  | cons r rs ih => simp [normalizeFrom, ih]

/-- Helper: the j-th output of normalization is the normalization of the j-th
input row, at the shifted row index. -/
theorem normalizeFrom_getElem? (cfg : NormConfig) (rows : List RawRow) :
    ∀ i j, (normalizeFrom cfg i rows)[j]? =
      (rows[j]?).map (normalizeRow cfg (i + j)) := by
  induction rows with
  | nil => intro i j; simp [normalizeFrom]
  | cons r rs ih =>
    intro i j
    cases j with
    | zero => simp [normalizeFrom]
    | succ j =>
      have h := ih (i + 1) j
      simp only [normalizeFrom, List.getElem?_cons_succ, h]
      have : i + 1 + j = i + (j + 1) := by omega
      rw [this]

/-- Helper: splitting a list of sums into lefts and rights loses nothing. -/
theorem filterMap_left_right_length {α β : Type} (l : List (Sum α β)) :
    (l.filterMap Sum.getLeft?).length + (l.filterMap Sum.getRight?).length =
      l.length := by
  induction l with
  | nil => rfl
  | cons a l ih =>
    cases a <;> simp [List.filterMap_cons, Sum.getLeft?, Sum.getRight?] <;> omega

/-- C2: `normalize` is total and accounts for each input row exactly once in
input order — the output sequence has one entry per row at the same index, the
candidate count plus the error count equals the row count, a row with an
unparseable date (or amount) becomes a row error at its own index, and a
parseable row becomes a candidate at its own index regardless of the other
rows, so no single bad row aborts the batch. -/
theorem normalize_total_row_accounting (cfg : NormConfig) (rows : List RawRow) :
    (normalizeAll cfg rows).length = rows.length ∧
    (∀ (i : Nat) (r : RawRow), rows[i]? = some r →
      (normalizeAll cfg rows)[i]? = some (normalizeRow cfg i r)) ∧
    (normalize cfg rows).1.length + (normalize cfg rows).2.length =
      rows.length ∧
    (∀ (i : Nat) (r : RawRow), rows[i]? = some r → cfg.parseDate r.date = none →
      (normalizeAll cfg rows)[i]? =
        some (Sum.inr (({ rowIndex := i, message := "unparseable date" } :
          RowError)))) ∧
    (∀ (i : Nat) (r : RawRow), rows[i]? = some r → ∀ (d : Nat) (a : Int),
      cfg.parseDate r.date = some d → cfg.parseAmount r.amount = some a →
      (normalizeAll cfg rows)[i]? = some (Sum.inl
        (({ date := d, merchant := cfg.deriveMerchant r.description, amount := a,
            description := r.description } : Candidate)))) := by
  have hget : ∀ i r, rows[i]? = some r →
      (normalizeAll cfg rows)[i]? = some (normalizeRow cfg i r) := by
    intro i r h
    rw [normalizeAll, normalizeFrom_getElem? cfg rows 0 i, h]
    simp [Nat.zero_add]
  refine ⟨?_, hget, ?_, ?_, ?_⟩
  · exact normalizeFrom_length cfg 0 rows
  · rw [normalize]
    exact (filterMap_left_right_length (normalizeAll cfg rows)).trans
      (normalizeFrom_length cfg 0 rows)
  · intro i r h hbad
    rw [hget i r h, normalizeRow, hbad]
  · intro i r h d a hd ha
    rw [hget i r h, normalizeRow, hd, ha]

/-- Witness for C2 at a concrete two-row upload: the valid row becomes the
candidate at index 0 and the bad-date row becomes the error at index 1. -/
theorem normalize_total_row_accounting_witness :
    (normalize sampleNormCfg mixedRows).1.length +
        (normalize sampleNormCfg mixedRows).2.length = mixedRows.length ∧
    (normalizeAll sampleNormCfg mixedRows)[1]? =
      some (Sum.inr { rowIndex := 1, message := "unparseable date" }) ∧
    (normalizeAll sampleNormCfg mixedRows)[0]? = some (Sum.inl
      { date := 19727, merchant := "XYZ STORE", amount := -1550,
        description := "XYZ STORE" }) :=
  ⟨(normalize_total_row_accounting sampleNormCfg mixedRows).2.2.1,
   (normalize_total_row_accounting sampleNormCfg mixedRows).2.2.2.1 1
      { date := "not-a-date", description := "XYZ STORE", amount := "-15.50" }
      rfl (by decide),
   (normalize_total_row_accounting sampleNormCfg mixedRows).2.2.2.2 0
      { date := "2024-01-05", description := "XYZ STORE", amount := "-15.50" }
      rfl 19727 (-1550) (by decide) (by decide)⟩

/-- Helper: importing candidates never touches the invoice table. -/
theorem importCandidates_invoices (rules : List Rule)
    (ai : Candidate → Option Category) (u inv : Nat) (cs : List Candidate) :
    ∀ s : Store, (importCandidates rules ai u inv s cs).store.invoices =
      s.invoices := by
  induction cs with
  | nil => intro s; rfl
  | cons c cs ih =>
    intro s
    rw [importCandidates]
    by_cases hd : isDuplicate s u c
    · simp only [hd, if_true]
      exact ih s
    · simp only [hd, if_false]
      exact ih _

/-- C5: the invoice status machine is `pending → processing → {processed |
failed}` and terminal states are absorbing under the guarded transition; every
upload appends one fresh invoice (with a new id, ending processed or failed)
and leaves every existing invoice untouched, so re-uploading a filename never
mutates a terminal invoice. -/
theorem invoice_status_machine_spec :
    (∀ st t : Status, terminalStatus st = true → stepStatus st t = st) ∧
    (∀ a b : Status, allowedNext a b = true ↔
      (a = Status.pending ∧ b = Status.processing) ∨
      (a = Status.processing ∧
        (b = Status.processed ∨ b = Status.failed))) ∧
    (∀ cfg cc ai u fn s rows,
      (processUpload cfg cc ai u fn s rows).store.invoices =
        s.invoices ++ [(processUpload cfg cc ai u fn s rows).invoice] ∧
      (processUpload cfg cc ai u fn s rows).invoice.id = s.nextInvoiceId ∧
      ((processUpload cfg cc ai u fn s rows).invoice.status = Status.processed ∨
        (processUpload cfg cc ai u fn s rows).invoice.status = Status.failed)) := by
  refine ⟨?_, ?_, ?_⟩
  · intro st t h
    cases st <;> cases t <;> first | rfl | exact absurd h (by decide)
  · intro a b
    cases a <;> cases b <;> decide
  · intro cfg cc ai u fn s rows
    simp only [processUpload]
    refine ⟨?_, trivial, ?_⟩
    · rw [importCandidates_invoices]
    · by_cases hb : ((normalize cfg rows).1.isEmpty ||
          decide (cc.errorThresholdNum * rows.length <
            (normalize cfg rows).2.length * cc.errorThresholdDen)) = true
      · right
        simp [hb, stepStatus, allowedNext]
      · left
        simp [hb, stepStatus, allowedNext]

/-- Witness for C5: a processed invoice never steps back to processing. -/
theorem invoice_status_machine_spec_witness :
    stepStatus Status.processed Status.processing = Status.processed :=
  invoice_status_machine_spec.1 Status.processed Status.processing rfl

/-- Helper: the left-accumulated total equals the declarative sum. -/
theorem foldl_add_amount (l : List Expense) (a : Int) :
    l.foldl (fun acc e => acc + e.amount) a = a + (l.map fun e => e.amount).sum := by
  induction l generalizing a with
  | nil => simp
  | cons e l ih =>
    rw [List.foldl_cons, ih, List.map_cons, List.sum_cons]
    ring

/-- Helper: looking a category up in the tabulated pair list finds its
tabulated value as soon as the category occurs in the key list. -/
theorem find_map_pair_of_mem (cats : List Category) (f : Category → Int)
    (c : Category) (hm : c ∈ cats) :
    (cats.map fun x => (x, f x)).find? (fun p => decide (p.1 = c)) =
      some (c, f c) := by
  induction cats with
  | nil => cases hm
  | cons a l ih =>
    by_cases h : a = c
    · subst h
      simp [List.find?]
    · rw [List.map_cons, List.find?_cons_of_neg _ (by simpa using h)]
      rcases List.mem_cons.mp hm with h1 | h1
      · exact absurd h1.symm h
      · exact ih h1

/-- Helper: the lookup fails when the category occurs nowhere in the key list. -/
theorem find_map_pair_of_not_mem (cats : List Category) (f : Category → Int)
    (c : Category) (hm : c ∉ cats) :
    (cats.map fun x => (x, f x)).find? (fun p => decide (p.1 = c)) = none := by
  induction cats with
  | nil => rfl
  | cons a l ih =>
    have ha : ¬ a = c := fun h => hm (h ▸ List.mem_cons_self a l)
    rw [List.map_cons, List.find?_cons_of_neg _ (by simpa using ha)]
    exact ih (fun h => hm (List.mem_cons_of_mem a h))

/-- Helper: membership in the window expense list. -/
theorem mem_windowExpenses (es : List Expense) (u : Nat) (w : Window)
    (e : Expense) :
    e ∈ windowExpenses es u w ↔
      e ∈ es ∧ e.userId = u ∧ w.startDay ≤ e.date ∧ e.date ≤ w.endDay := by
  simp [windowExpenses, List.mem_filter, inWindow, and_assoc]

/-- C6: `summary` over a window totals exactly the expenses of the user whose date
lies in the window (the accumulated total is the sum over precisely the
filtered rows — no double counting, no omission), the window length is ≥ 1
day, the daily average times the window length gives back the total, and the
category breakdown contains exactly the categories with at least one
transaction in the window, each mapped to its summed amount. -/
theorem summary_window_spec (es : List Expense) (u : Nat) (w : Window)
    (h : w.startDay ≤ w.endDay) :
    totalSpent es u w = ((windowExpenses es u w).map fun e => e.amount).sum ∧
    (∀ e : Expense, e ∈ windowExpenses es u w ↔
      e ∈ es ∧ e.userId = u ∧ w.startDay ≤ e.date ∧ e.date ≤ w.endDay) ∧
    1 ≤ windowDays w ∧
    dailyAverage es u w * (windowDays w : ℚ) = (totalSpent es u w : ℚ) ∧
    (∀ c : Category,
      (∃ v : Int, breakdownLookup (categoryBreakdown es u w) c = some (c, v)) ↔
        ∃ e ∈ windowExpenses es u w, e.category = some c) ∧
    (∀ (c : Category) (v : Int),
      breakdownLookup (categoryBreakdown es u w) c = some (c, v) →
        v = catTotal es u w c) := by
  have hpresent : ∀ c : Category, c ∈ presentCats es u w ↔
      ∃ e ∈ windowExpenses es u w, e.category = some c := by
    intro c
    rw [presentCats, List.mem_dedup, List.mem_filterMap]
  refine ⟨?_, mem_windowExpenses es u w, ?_, ?_, ?_, ?_⟩
  · rw [totalSpent, foldl_add_amount, zero_add]
  · exact Nat.le_add_left 1 _
  · rw [dailyAverage]
    have hz : ((windowDays w : ℚ)) ≠ 0 := by
      have : 0 < windowDays w := Nat.succ_le_of_lt (Nat.lt_of_lt_of_le
        Nat.zero_lt_one (Nat.le_add_left 1 _))
      exact_mod_cast Nat.pos_iff_ne_zero.mp this
    field_simp
  · intro c
    constructor
    · rintro ⟨v, hv⟩
      by_cases hmem : c ∈ presentCats es u w
      · exact (hpresent c).mp hmem
      · rw [breakdownLookup, categoryBreakdown,
          find_map_pair_of_not_mem _ _ _ hmem] at hv
        cases hv
    · intro hex
      refine ⟨catTotal es u w c, ?_⟩
      rw [breakdownLookup, categoryBreakdown,
        find_map_pair_of_mem _ _ _ ((hpresent c).mpr hex)]
  · intro c v hv
    by_cases hmem : c ∈ presentCats es u w
    · rw [breakdownLookup, categoryBreakdown,
        find_map_pair_of_mem _ _ _ hmem] at hv
      injection hv with hv
      exact ((Prod.mk.injEq _ _ _ _).mp hv).2.symm
    · rw [breakdownLookup, categoryBreakdown,
        find_map_pair_of_not_mem _ _ _ hmem] at hv
      cases hv

/-- Witness for C6 at a concrete expense set and window. -/
theorem summary_window_spec_witness :
    totalSpent sampleExpenses 1 sampleWindow =
      ((windowExpenses sampleExpenses 1 sampleWindow).map fun e => e.amount).sum :=
  (summary_window_spec sampleExpenses 1 sampleWindow (by decide)).1

/-- Helper: indexing into a mapped range. -/
theorem getElem?_map_range {α : Type} (f : Nat → α) (k i : Nat) (h : i < k) :
    ((List.range k).map f)[i]? = some (f i) := by
  rw [List.getElem?_map, List.getElem?_range h]
  rfl

/-- C7: `monthlyTrend(monthsBack)` returns exactly monthsBack entries, the
i-th being the entry of calendar month (nowMonth + 1 - monthsBack + i) — so
the sequence runs oldest to newest with exactly one entry per calendar month,
strictly increasing — and a month with zero transactions still appears, with
total 0 and count 0. -/
theorem monthlyTrend_spec (cal : CalConfig) (es : List Expense)
    (u nowMonth k : Nat) (h : 1 ≤ k) :
    (monthlyTrend cal es u nowMonth k).length = k ∧
    (∀ i : Nat, i < k → (monthlyTrend cal es u nowMonth k)[i]? =
      some (trendEntry cal es u (nowMonth + 1 - k + i))) ∧
    (∀ (i j : Nat) (a b : TrendEntry),
      (monthlyTrend cal es u nowMonth k)[i]? = some a →
      (monthlyTrend cal es u nowMonth k)[j]? = some b → i < j →
      a.monthIdx < b.monthIdx) ∧
    (∀ i : Nat, i < k → monthExpenses cal es u (nowMonth + 1 - k + i) = [] →
      ∃ t : TrendEntry, (monthlyTrend cal es u nowMonth k)[i]? = some t ∧
        t.total = 0 ∧ t.count = 0 ∧ t.monthIdx = nowMonth + 1 - k + i) := by
  have hlen : (monthlyTrend cal es u nowMonth k).length = k := by
    simp [monthlyTrend]
  have hget : ∀ i : Nat, i < k → (monthlyTrend cal es u nowMonth k)[i]? =
      some (trendEntry cal es u (nowMonth + 1 - k + i)) := by
    intro i hi
    rw [monthlyTrend, getElem?_map_range _ k i hi]
  refine ⟨hlen, hget, ?_, ?_⟩
  · intro i j a b ha hb hij
    have hik : i < k := by
      have hx := (List.getElem?_eq_some.mp ha).1
      rwa [hlen] at hx
    have hjk : j < k := by
      have hx := (List.getElem?_eq_some.mp hb).1
      rwa [hlen] at hx
    rw [hget i hik] at ha
    rw [hget j hjk] at hb
    injection ha with ha
    injection hb with hb
    rw [← ha, ← hb]
    simp only [trendEntry]
    omega
  · intro i hi hempty
    refine ⟨trendEntry cal es u (nowMonth + 1 - k + i), hget i hi, ?_, ?_, rfl⟩
    · rw [trendEntry]
      simp [hempty]
    · rw [trendEntry]
      simp [hempty]

/-- Witness for C7 at a concrete window of three months. -/
theorem monthlyTrend_spec_witness :
    (monthlyTrend sampleCal sampleExpenses 1 23 3).length = 3 :=
  (monthlyTrend_spec sampleCal sampleExpenses 1 23 3 (by decide)).1

/-- Helper: importing never removes an existing expense row. -/
theorem importCandidates_expenses_mono (rules : List Rule)
    (ai : Candidate → Option Category) (u inv : Nat) (cs : List Candidate) :
    ∀ (s : Store) (e : Expense), e ∈ s.expenses →
      e ∈ (importCandidates rules ai u inv s cs).store.expenses := by
  induction cs with
  | nil => intro s e he; exact he
  | cons c cs ih =>
    intro s e he
    rw [importCandidates]
    by_cases hd : isDuplicate s u c = true
    · simp only [hd, if_true]
      exact ih s e he
    · simp only [hd, if_false]
      exact ih _ e (by simp [insertExpense, he])

/-- Helper: a candidate that is a duplicate stays a duplicate after importing
more candidates. -/
theorem isDuplicate_mono (rules : List Rule) (ai : Candidate → Option Category)
    (u inv : Nat) (cs : List Candidate) (s : Store) (c : Candidate)
    (hd : isDuplicate s u c = true) :
    isDuplicate (importCandidates rules ai u inv s cs).store u c = true := by
  rw [isDuplicate, List.any_eq_true]
  rw [isDuplicate, List.any_eq_true] at hd
  obtain ⟨e, he, hp⟩ := hd
  exact ⟨e, importCandidates_expenses_mono rules ai u inv cs s e he, hp⟩

/-- Helper: the expense persisted for a candidate matches that candidate. -/
theorem sameTxn_mkExpense (u id inv : Nat) (c : Candidate) (cat : Category)
    (aiC : Option Category) :
    sameTxn u c (mkExpense id u inv c cat aiC) = true := by
  simp [sameTxn, mkExpense]

/-- Helper: right after persisting a candidate, that candidate is a duplicate. -/
theorem isDuplicate_insert_self (s : Store) (u id inv : Nat) (c : Candidate)
    (cat : Category) (aiC : Option Category) :
    isDuplicate (insertExpense s (mkExpense id u inv c cat aiC)) u c = true := by
  rw [isDuplicate, List.any_eq_true]
  exact ⟨mkExpense id u inv c cat aiC, by simp [insertExpense],
    sameTxn_mkExpense u id inv c cat aiC⟩

/-- Helper: after an import, every candidate of the batch is a duplicate. -/
theorem importCandidates_makes_dup (rules : List Rule)
    (ai : Candidate → Option Category) (u inv : Nat) (cs : List Candidate) :
    ∀ (s : Store), ∀ c ∈ cs,
      isDuplicate (importCandidates rules ai u inv s cs).store u c = true := by
  induction cs with
  | nil => intro s c hc; cases hc
  | cons c cs ih =>
    intro s c2 hc2
    rw [importCandidates]
    by_cases hd : isDuplicate s u c = true
    · simp only [hd, if_true]
      rcases List.mem_cons.mp hc2 with rfl | h
      · exact isDuplicate_mono rules ai u inv cs s c2 hd
      · exact ih s c2 h
    · simp only [hd, if_false]
      rcases List.mem_cons.mp hc2 with rfl | h
      · exact isDuplicate_mono rules ai u inv cs _ c2
          (isDuplicate_insert_self s u s.nextExpenseId inv c2 _ _)
      · exact ih _ c2 h

/-- Helper: when every candidate is already a duplicate, the import persists
nothing, counts every row as skipped, and leaves the store untouched. -/
theorem importCandidates_all_dup (rules : List Rule)
    (ai : Candidate → Option Category) (u inv : Nat) (s : Store) :
    ∀ cs : List Candidate, (∀ c ∈ cs, isDuplicate s u c = true) →
      importCandidates rules ai u inv s cs =
        { store := s, imported := 0, skipped := cs.length } := by
  intro cs
  induction cs with
  | nil => intro _; rfl
  | cons c cs ih =>
    intro h
    rw [importCandidates, if_pos (h c (List.mem_cons_self c cs))]
    rw [ih (fun c2 hc2 => h c2 (List.mem_cons_of_mem c hc2))]
    rfl

/-- Helper: duplicate detection only reads the expense table. -/
theorem isDuplicate_expenses_eq (s1 s2 : Store) (h : s1.expenses = s2.expenses)
    (u : Nat) (c : Candidate) : isDuplicate s1 u c = isDuplicate s2 u c := by
  rw [isDuplicate, isDuplicate, h]

/-- Helper: re-importing a batch into any store holding the expense rows of the first import persists nothing. -/
theorem importCandidates_reimport (rules rules2 : List Rule)
    (ai ai2 : Candidate → Option Category) (u inv inv2 : Nat)
    (s s2 : Store) (cs : List Candidate)
    (h : s2.expenses = (importCandidates rules ai u inv s cs).store.expenses) :
    importCandidates rules2 ai2 u inv2 s2 cs =
      { store := s2, imported := 0, skipped := cs.length } := by
  refine importCandidates_all_dup rules2 ai2 u inv2 s2 cs (fun c hc => ?_)
  rw [isDuplicate_expenses_eq s2 (importCandidates rules ai u inv s cs).store h]
  exact importCandidates_makes_dup rules ai u inv cs s c hc

/-- Helper: the imported count of an upload is that of its candidate import. -/
theorem processUpload_imported (cfg : NormConfig) (cc : CoordConfig)
    (ai : Candidate → Option Category) (u : Nat) (fn : String) (s : Store)
    (rows : List RawRow) :
    (processUpload cfg cc ai u fn s rows).imported =
      (importCandidates cc.rules ai u s.nextInvoiceId
        { s with nextInvoiceId := s.nextInvoiceId + 1 }
        (normalize cfg rows).1).imported := rfl

/-- Helper: the expense rows after an upload are those of its candidate import. -/
theorem processUpload_expenses (cfg : NormConfig) (cc : CoordConfig)
    (ai : Candidate → Option Category) (u : Nat) (fn : String) (s : Store)
    (rows : List RawRow) :
    (processUpload cfg cc ai u fn s rows).store.expenses =
      (importCandidates cc.rules ai u s.nextInvoiceId
        { s with nextInvoiceId := s.nextInvoiceId + 1 }
        (normalize cfg rows).1).store.expenses := rfl

/-- C1: a candidate is a duplicate exactly when (date, merchant, amount) match
an existing expense of the same user; re-importing the same candidate batch
persists zero rows, counts them all as skipped and leaves the store unchanged;
an exact in-file duplicate row is already skipped on first import; and
re-uploading an identical file for the same user persists zero new expense
rows. -/
theorem duplicate_skip_reupload_spec (rules : List Rule)
    (ai ai2 : Candidate → Option Category) (u inv inv2 : Nat) (s : Store)
    (cs : List Candidate) :
    (∀ c : Candidate, isDuplicate s u c = true ↔
      ∃ e ∈ s.expenses, e.userId = u ∧ e.date = c.date ∧
        e.merchant = c.merchant ∧ e.amount = c.amount) ∧
    importCandidates rules ai2 u inv2
        (importCandidates rules ai u inv s cs).store cs =
      { store := (importCandidates rules ai u inv s cs).store, imported := 0,
        skipped := cs.length } ∧
    (∀ c : Candidate, isDuplicate s u c = false →
      (importCandidates rules ai u inv s [c, c]).imported = 1 ∧
      (importCandidates rules ai u inv s [c, c]).skipped = 1) ∧
    (∀ (cfg : NormConfig) (cc : CoordConfig) (fn fn2 : String)
        (rows : List RawRow),
      (processUpload cfg cc ai2 u fn2
          (processUpload cfg cc ai u fn s rows).store rows).imported = 0 ∧
      (processUpload cfg cc ai2 u fn2
          (processUpload cfg cc ai u fn s rows).store rows).store.expenses =
        (processUpload cfg cc ai u fn s rows).store.expenses) := by
  refine ⟨?_, ?_, ?_, ?_⟩
  · intro c
    rw [isDuplicate, List.any_eq_true]
    constructor
    · rintro ⟨e, he, hp⟩
      exact ⟨e, he, by simpa [sameTxn] using hp⟩
    · rintro ⟨e, he, hp⟩
      exact ⟨e, he, by simpa [sameTxn] using hp⟩
  · exact importCandidates_reimport rules rules ai ai2 u inv inv2 s
      (importCandidates rules ai u inv s cs).store cs rfl
  · intro c hc
    simp [importCandidates, hc, isDuplicate_insert_self]
  · intro cfg cc fn fn2 rows
    have hre := importCandidates_reimport cc.rules cc.rules ai ai2 u
      s.nextInvoiceId ((processUpload cfg cc ai u fn s rows).store.nextInvoiceId)
      { s with nextInvoiceId := s.nextInvoiceId + 1 }
      { (processUpload cfg cc ai u fn s rows).store with nextInvoiceId :=
          (processUpload cfg cc ai u fn s rows).store.nextInvoiceId + 1 }
      (normalize cfg rows).1
      (processUpload_expenses cfg cc ai u fn s rows)
    constructor
    · rw [processUpload_imported cfg cc ai2 u fn2
        (processUpload cfg cc ai u fn s rows).store rows, hre]
    · rw [processUpload_expenses cfg cc ai2 u fn2
        (processUpload cfg cc ai u fn s rows).store rows, hre]

/-- Witness for C1: importing a file whose two rows are exact duplicates of
each other persists one row and skips one. -/
theorem duplicate_skip_reupload_spec_witness :
    (importCandidates sampleRules (fun _ => none) 1 0 emptyStore
      [uberCand, uberCand]).imported = 1 ∧
    (importCandidates sampleRules (fun _ => none) 1 0 emptyStore
      [uberCand, uberCand]).skipped = 1 :=
  (duplicate_skip_reupload_spec sampleRules (fun _ => none) (fun _ => none)
    1 0 0 emptyStore []).2.2.1 uberCand rfl

/-- Helper: every expense row after an import either predates the import or is
the persisted, classified form of one of the candidates of the batch. -/
theorem importCandidates_expenses_cases (rules : List Rule)
    (ai : Candidate → Option Category) (u inv : Nat) (cs : List Candidate) :
    ∀ (s : Store) (e : Expense),
      e ∈ (importCandidates rules ai u inv s cs).store.expenses →
        e ∈ s.expenses ∨ ∃ c ∈ cs, ∃ id : Nat,
          e = mkExpense id u inv c (classify rules c (ai c)).1
            (aiFieldOf rules c (ai c)) := by
  induction cs with
  | nil => intro s e he; exact Or.inl he
  | cons c cs ih =>
    intro s e he
    rw [importCandidates] at he
    by_cases hd : isDuplicate s u c = true
    · simp only [hd, if_true] at he
      rcases ih s e he with h | ⟨c2, hc2, id, hid⟩
      · exact Or.inl h
      · exact Or.inr ⟨c2, List.mem_cons_of_mem c hc2, id, hid⟩
    · simp only [hd, if_false] at he
      rcases ih _ e he with h | ⟨c2, hc2, id, hid⟩
      · have h2 : e ∈ s.expenses ∨ e = mkExpense s.nextExpenseId u inv c
            (classify rules c (ai c)).1 (aiFieldOf rules c (ai c)) := by
          simpa [insertExpense] using h
        rcases h2 with h1 | h1
        · exact Or.inl h1
        · exact Or.inr ⟨c, List.mem_cons_self c cs, s.nextExpenseId, h1⟩
      · exact Or.inr ⟨c2, List.mem_cons_of_mem c hc2, id, hid⟩

/-- Helper: when the AI call fails, no AI suggestion is recorded. -/
theorem aiFieldOf_none (rules : List Rule) (c : Candidate) :
    aiFieldOf rules c none = none := by
  cases h : ruleMatch rules c.merchant <;> simp [aiFieldOf, classify, h]

/-- Helper: when the AI call fails and no rule matches, classification falls
back to OTHER. -/
theorem classify_none_no_rule (rules : List Rule) (c : Candidate)
    (h : ruleMatch rules c.merchant = none) :
    classify rules c none = (Category.other, Source.default) := by
  simp [classify, h]

/-- C4: an AI-classification failure for every record of a batch is not fatal:
given at least one valid row and a row-error count within the threshold, the
invoice ends processed, and every expense persisted by the upload belongs to
the user, records no AI suggestion, always has a category, and — when no rule
matched its merchant — is categorized OTHER and is exactly in the set
`classifyBatch` later re-processes. -/
theorem ai_failure_not_fatal_spec (cfg : NormConfig) (cc : CoordConfig)
    (u : Nat) (fn : String) (s : Store) (rows : List RawRow)
    (hvalid : (normalize cfg rows).1 ≠ [])
    (hthr : ¬ (cc.errorThresholdNum * rows.length <
      (normalize cfg rows).2.length * cc.errorThresholdDen)) :
    (processUpload cfg cc (fun _ => none) u fn s rows).invoice.status =
      Status.processed ∧
    (∀ e ∈ (processUpload cfg cc (fun _ => none) u fn s rows).store.expenses,
      e ∉ s.expenses →
        e.userId = u ∧ e.aiCategory = none ∧ e.category.isSome = true ∧
        (ruleMatch cc.rules e.merchant = none →
          e.category = some Category.other ∧ eligibleForRecat u e = true)) := by
  constructor
  · simp only [processUpload]
    have hb : ((normalize cfg rows).1.isEmpty ||
        decide (cc.errorThresholdNum * rows.length <
          (normalize cfg rows).2.length * cc.errorThresholdDen)) = false := by
      simp [List.isEmpty_iff, hvalid, hthr]
    simp [hb, stepStatus, allowedNext]
  · intro e he hnot
    rw [processUpload_expenses cfg cc (fun _ => none) u fn s rows] at he
    rcases importCandidates_expenses_cases cc.rules (fun _ => none) u
        s.nextInvoiceId (normalize cfg rows).1
        { s with nextInvoiceId := s.nextInvoiceId + 1 } e he with h | h
    · exact absurd h hnot
    · obtain ⟨c, _, id, rfl⟩ := h
      refine ⟨rfl, aiFieldOf_none cc.rules c, rfl, fun hrule => ?_⟩
      have hcl : classify cc.rules c none = (Category.other, Source.default) :=
        classify_none_no_rule cc.rules c hrule
      constructor
      · show some (classify cc.rules c none).1 = some Category.other
        rw [hcl]
      · simp [eligibleForRecat, mkExpense, hcl]

/-- Witness for C4 at a concrete one-row upload whose merchant matches no rule. -/
theorem ai_failure_not_fatal_spec_witness :
    (processUpload sampleNormCfg sampleCoordCfg (fun _ => none) 1 "jan.csv"
      emptyStore sampleRows).invoice.status = Status.processed :=
  (ai_failure_not_fatal_spec sampleNormCfg sampleCoordCfg 1 "jan.csv"
    emptyStore sampleRows (by decide) (by decide)).1

/-- Helper: every freshly persisted expense satisfies the data-model invariant. -/
theorem expenseInv_mkExpense (id u inv : Nat) (c : Candidate) (cat : Category)
    (aiC : Option Category) : ExpenseInv (mkExpense id u inv c cat aiC) :=
  ⟨rfl, fun _ => Nat.le_refl 1⟩

/-- Helper: recategorization preserves the data-model invariant. -/
theorem expenseInv_recatExpense (rules : List Rule) (aiR : Option Category)
    (e : Expense) : ExpenseInv (recatExpense rules aiR e) :=
  ⟨rfl, fun _ => Nat.succ_le_succ (Nat.zero_le e.classifyRuns)⟩

/-- Helper: every single pipeline operation preserves the store invariant. -/
theorem applyOp_preserves_inv (s : Store) (op : Op) (h : StoreInv s) :
    StoreInv (applyOp s op) := by
  cases op with
  | upload cfg cc ai u fn rows =>
    intro e he
    rw [applyOp, processUpload_expenses cfg cc ai u fn s rows] at he
    rcases importCandidates_expenses_cases cc.rules ai u s.nextInvoiceId
        (normalize cfg rows).1 { s with nextInvoiceId := s.nextInvoiceId + 1 }
        e he with h1 | h1
    · exact h e h1
    · obtain ⟨c, _, id, rfl⟩ := h1
      exact expenseInv_mkExpense id u s.nextInvoiceId c _ _
  | recategorize rules aiR id =>
    intro e he
    rw [applyOp] at he
    obtain ⟨e0, he0, rfl⟩ := List.mem_map.mp he
    by_cases hid : (e0.id == id) = true
    · rw [if_pos hid]
      exact expenseInv_recatExpense rules aiR e0
    · rw [if_neg hid]
      exact h e0 he0
  | batch rules ai u =>
    intro e he
    rw [applyOp, classifyBatch] at he
    obtain ⟨e0, he0, rfl⟩ := List.mem_map.mp he
    by_cases hel : eligibleForRecat u e0 = true
    · rw [if_pos hel]
      exact expenseInv_recatExpense rules (ai e0) e0
    · rw [if_neg hel]
      exact h e0 he0
  | updateCategory id cat =>
    intro e he
    rw [applyOp] at he
    obtain ⟨e0, he0, rfl⟩ := List.mem_map.mp he
    by_cases hid : (e0.id == id) = true
    · rw [if_pos hid]
      exact ⟨rfl, fun ha => (h e0 he0).2 ha⟩
    · rw [if_neg hid]
      exact h e0 he0
  | deleteExpense id =>
    intro e he
    rw [applyOp] at he
    exact h e (List.mem_filter.mp he).1

/-- C8: starting from the empty store, every sequence of pipeline operations
(uploads, recategorizations, batch categorization, user category updates,
deletions) leaves every persisted expense with a category always set (OTHER
when classification fell back) and with an AI suggestion only once
classification has run at least once; the amount field is total by
construction, so it can never be null. -/
theorem expense_data_model_invariant (ops : List Op) :
    StoreInv (applyOps emptyStore ops) := by
  have hgen : ∀ (l : List Op) (s : Store), StoreInv s →
      StoreInv (l.foldl applyOp s) := by
    intro l
    induction l with
    | nil => intro s hs; exact hs
    | cons op l ih => intro s hs; exact ih _ (applyOp_preserves_inv s op hs)
  exact hgen ops emptyStore (fun e he => absurd he (List.not_mem_nil e))

/-- Witness for C8: the invariant evaluated on the expense persisted by a
concrete upload. -/
theorem expense_data_model_invariant_witness :
    ExpenseInv sampleImportedExpense :=
  expense_data_model_invariant
    [Op.upload sampleNormCfg sampleCoordCfg (fun _ => none) 1 "jan.csv"
      sampleRows]
    sampleImportedExpense (by decide)

end SpendTrack
